import Mathlib

/-!
Verification of the singleton metaclass module (src/singleton/singleton.py).

The module defines three metaclasses — `HardSingleton`, `SoftSingletonV1`
(the spec's SoftReuseInit) and `SoftSingletonV2` (the spec's SoftSkipInit) —
each of which rewrites a governed class's `__new__`, `__init__` and `__del__`
at attachment time.  We embed the rewritten operations as pure functions over
explicit state:

* Python object identities are natural numbers drawn from an allocation
  counter `nextId`; the set of live objects of the governed type is a list
  `live`.
* A weak reference (`weakref.ref`) to object `r` is the number `r`; calling
  the reference (`cls.__object_ref()`) is `weakDeref`, which yields `some r`
  when the referent is still alive and `none` otherwise.
* Per-type policy state follows the source: `__has_instance : Bool` for the
  hard policy, `__object_ref : Option Nat` for both soft policies, and
  additionally `__not_init : Bool` for `SoftSingletonV2`.
* A full destruction event runs the rewritten `__del__` (which clears the
  policy state) and then removes the object from the live set.
-/

namespace Singleton

/-- Python exception classes relevant to this module.  The source declares
`class SingletonError(BaseException)` (singleton.py line 10); `Exception` is
Python's builtin, itself a direct subclass of `BaseException`. -/
inductive PyClass where
  | baseException
  | exception
  | singletonError
deriving DecidableEq, Repr

/-- Direct base class of each modelled Python class: `SingletonError`
inherits from `BaseException` (singleton.py line 10), and the builtin
`Exception` inherits from `BaseException`. -/
def superclass : PyClass → Option PyClass
  | .baseException => none
  | .exception => some .baseException
  | .singletonError => some .baseException

/-- Fuelled reflexive-transitive walk up the base-class chain. -/
def isSubclassAux : Nat → PyClass → PyClass → Bool
  | 0, _, _ => false
  | fuel + 1, c, d =>
    c = d ||
      match superclass c with
      | some p => isSubclassAux fuel p d
      | none => false

/-- Python `issubclass`: the base-class chain here has depth at most two, so
fuel 3 suffices. -/
def isSubclass (c d : PyClass) : Bool :=
  isSubclassAux 3 c d

/-- An `except H:` handler catches a raised exception of class `r` exactly
when `r` is a subclass of `H`. -/
def exceptCatches (handler raised : PyClass) : Bool :=
  isSubclass raised handler

/-- Calling a weak reference: `some r` when the referent `r` is in the live
set, `none` once the referent has been destroyed. -/
def weakDeref (live : List Nat) : Option Nat → Option Nat
  | none => none
  | some r => if r ∈ live then some r else none

/-- State of a class governed by `HardSingleton`: the allocation counter, the
live instances of the governed type, and the class attribute
`__has_instance` set to `False` at attachment time (singleton.py line 141). -/
structure HardSys where
  nextId : Nat
  live : List Nat
  hasInstance : Bool
deriving DecidableEq, Repr

/-- State of a freshly attached `HardSingleton` class: no live instance,
`__has_instance = False`. -/
def HardSys.start : HardSys :=
  ⟨0, [], false⟩

/-- The hard policy's `_new_` (singleton.py lines 144-150): if
`cls.__has_instance` raise `SingletonError`, else set the flag, call the
original `__new__` (modelled as allocating a fresh identity), and return the
new instance. -/
def hard_new (s : HardSys) : Except PyClass (HardSys × Nat) :=
  if s.hasInstance then
    .error .singletonError
  else
    .ok (⟨s.nextId + 1, s.nextId :: s.live, true⟩, s.nextId)

/-- A full construction call `T(...)` under the hard policy: thread the state
through `hard_new`, keeping the pre-call state when the call raises. -/
def hardConstructR (s : HardSys) : HardSys × Except PyClass Nat :=
  match hard_new s with
  | .error e => (s, .error e)
  | .ok (s1, obj) => (s1, .ok obj)

/-- State part of a hard-policy construction call. -/
def hardConstruct (s : HardSys) : HardSys :=
  (hardConstructR s).1

/-- A full destruction event under the hard policy: if a governed instance is
live, its rewritten `__del__` (singleton.py lines 154-160) clears
`__has_instance`, then the object dies.  With no live instance there is
nothing to destroy. -/
def hardDestroy (s : HardSys) : HardSys :=
  match s.live with
  | [] => s
  | _ :: rest => ⟨s.nextId, rest, false⟩

/-- The two lifecycle operations a client can issue. -/
inductive Op where
  | construct
  | destroy
deriving DecidableEq, Repr

/-- One step of the hard-policy machine. -/
def hardStep (s : HardSys) : Op → HardSys
  | .construct => hardConstruct s
  | .destroy => hardDestroy s

/-- Run a sequence of operations from the freshly attached hard state. -/
def hardRun (ops : List Op) : HardSys :=
  ops.foldl hardStep HardSys.start

/-- Invariant of the hard machine: the flag tracks liveness exactly, at most
one instance is live, and live identities are below the counter. -/
def HardInv (s : HardSys) : Prop :=
  (s.hasInstance = true ↔ s.live ≠ []) ∧ s.live.length ≤ 1 ∧
    ∀ x ∈ s.live, x < s.nextId


/-- State of a class governed by `SoftSingletonV1` (the spec's
SoftReuseInit): the allocation counter, the live instances of the governed
type, the class attribute `__object_ref` set to `None` at attachment time
(singleton.py line 185), and a log of the identities on which the original
`__init__` has been invoked, in call order. -/
structure SoftV1Sys where
  nextId : Nat
  live : List Nat
  objectRef : Option Nat
  initLog : List Nat
deriving DecidableEq, Repr

/-- State of a freshly attached `SoftSingletonV1` class. -/
def SoftV1Sys.start : SoftV1Sys :=
  ⟨0, [], none, []⟩

/-- The soft V1 policy's `_new_` (singleton.py lines 188-194): if
`cls.__object_ref is None`, call the original `__new__` (allocate a fresh
identity) and store a weak reference over the result; in every case return
the call of the stored weak reference, `cls.__object_ref()`. -/
def softV1New (s : SoftV1Sys) : SoftV1Sys × Option Nat :=
  match s.objectRef with
  | none =>
    let obj := s.nextId
    let s1 : SoftV1Sys := ⟨s.nextId + 1, obj :: s.live, some obj, s.initLog⟩
    (s1, weakDeref s1.live s1.objectRef)
  | some r => (s, weakDeref s.live (some r))

/-- A full construction call `T(...)` under soft V1.  `SoftSingletonV1`
installs the unmodified original `__init__` (singleton.py line 210), so
Python's call protocol invokes it on the object returned by `__new__`
whenever that object is an instance of `T`. -/
def softV1Construct (s : SoftV1Sys) : SoftV1Sys × Option Nat :=
  match softV1New s with
  | (s1, some obj) => (⟨s1.nextId, s1.live, s1.objectRef, s1.initLog ++ [obj]⟩, some obj)
  | (s1, none) => (s1, none)

/-- State part of a soft V1 construction call. -/
def softV1ConstructS (s : SoftV1Sys) : SoftV1Sys :=
  (softV1Construct s).1

/-- A full destruction event under soft V1: if a governed instance is live,
its rewritten `__del__` (singleton.py lines 198-204) sets `__object_ref` to
`None`, then the object dies. -/
def softV1Destroy (s : SoftV1Sys) : SoftV1Sys :=
  match s.live with
  | [] => s
  | _ :: rest => ⟨s.nextId, rest, none, s.initLog⟩

/-- One step of the soft V1 machine. -/
def softV1Step (s : SoftV1Sys) : Op → SoftV1Sys
  | .construct => softV1ConstructS s
  | .destroy => softV1Destroy s

/-- Run a sequence of operations from the freshly attached soft V1 state. -/
def softV1Run (ops : List Op) : SoftV1Sys :=
  ops.foldl softV1Step SoftV1Sys.start

/-- Invariant of the soft V1 machine: either no reference is stored and
nothing is live, or the stored reference is the sole live instance; live
identities are below the counter. -/
def SoftV1Inv (s : SoftV1Sys) : Prop :=
  (s.objectRef = none ∧ s.live = [] ∨
    ∃ r, s.objectRef = some r ∧ s.live = [r]) ∧
    ∀ x ∈ s.live, x < s.nextId


/-- State of a class governed by `SoftSingletonV2` (the spec's
SoftSkipInit): as for soft V1, plus the class attribute `__not_init` set to
`True` at attachment time (singleton.py line 230). -/
structure SoftV2Sys where
  nextId : Nat
  live : List Nat
  objectRef : Option Nat
  notInit : Bool
  initLog : List Nat
deriving DecidableEq, Repr

/-- State of a freshly attached `SoftSingletonV2` class. -/
def SoftV2Sys.start : SoftV2Sys :=
  ⟨0, [], none, true, []⟩

/-- The soft V2 policy's `_new_` (singleton.py lines 233-239), identical in
text to the soft V1 one: allocate and store a fresh weak reference when
`cls.__object_ref is None`, then return `cls.__object_ref()`. -/
def softV2New (s : SoftV2Sys) : SoftV2Sys × Option Nat :=
  match s.objectRef with
  | none =>
    let obj := s.nextId
    let s1 : SoftV2Sys := ⟨s.nextId + 1, obj :: s.live, some obj, s.notInit, s.initLog⟩
    (s1, weakDeref s1.live s1.objectRef)
  | some r => (s, weakDeref s.live (some r))

/-- The soft V2 policy's `_init_` (singleton.py lines 241-244): call the
original `__init__` and clear `__not_init` when the flag is set, else skip. -/
def softV2Init (s : SoftV2Sys) (obj : Nat) : SoftV2Sys :=
  if s.notInit then
    ⟨s.nextId, s.live, s.objectRef, false, s.initLog ++ [obj]⟩
  else
    s

/-- A full construction call `T(...)` under soft V2: `_new_`, then `_init_`
on the returned object whenever `__new__` produced an instance of `T`. -/
def softV2Construct (s : SoftV2Sys) : SoftV2Sys × Option Nat :=
  match softV2New s with
  | (s1, some obj) => (softV2Init s1 obj, some obj)
  | (s1, none) => (s1, none)

/-- State part of a soft V2 construction call. -/
def softV2ConstructS (s : SoftV2Sys) : SoftV2Sys :=
  (softV2Construct s).1

/-- A full destruction event under soft V2: if a governed instance is live,
its rewritten `__del__` (singleton.py lines 248-256) sets `__object_ref` to
`None` and `__not_init` to `True`, then the object dies. -/
def softV2Destroy (s : SoftV2Sys) : SoftV2Sys :=
  match s.live with
  | [] => s
  | _ :: rest => ⟨s.nextId, rest, none, true, s.initLog⟩

/-- One step of the soft V2 machine. -/
def softV2Step (s : SoftV2Sys) : Op → SoftV2Sys
  | .construct => softV2ConstructS s
  | .destroy => softV2Destroy s

/-- Run a sequence of operations from the freshly attached soft V2 state. -/
def softV2Run (ops : List Op) : SoftV2Sys :=
  ops.foldl softV2Step SoftV2Sys.start

/-- Invariant of the soft V2 machine: the stored reference and the live set
agree as for soft V1, live identities are below the counter, and
`__not_init` holds exactly when no reference is stored. -/
def SoftV2Inv (s : SoftV2Sys) : Prop :=
  (s.objectRef = none ∧ s.live = [] ∨
    ∃ r, s.objectRef = some r ∧ s.live = [r]) ∧
    (∀ x ∈ s.live, x < s.nextId) ∧
    s.notInit = s.objectRef.isNone

/-- A Python instance as seen by the wrappers: its exact runtime class
(`self.__class__`, a type identity modelled as a number) and its object
identity. -/
structure PyObj where
  cls : Nat
  ident : Nat
deriving DecidableEq, Repr

/-- The generic `__new__` wrapper built by
`SingletonMeta._create_singleton__new__` (singleton.py lines 83-89): run the
policy's modified behaviour only when the requested class is exactly the
governed class, otherwise call the captured original `__new__` unmodified.
The behaviours are arbitrary state transformers returning a result. -/
def create_singleton_new {σ α : Type} (singleton_cls : Nat)
    (orig_new modified_new : Nat → σ → σ × α) (cls : Nat) (s : σ) : σ × α :=
  if cls = singleton_cls then modified_new cls s else orig_new cls s

/-- The generic `__init__` wrapper built by
`SingletonMeta._create_singleton__init__` (singleton.py lines 98-104): run
the modified behaviour only when `self.__class__` is exactly the governed
class, otherwise call the captured original `__init__` unmodified. -/
def create_singleton_init {σ : Type} (singleton_cls : Nat)
    (orig_init modified_init : PyObj → σ → σ) (self : PyObj) (s : σ) : σ :=
  if self.cls = singleton_cls then modified_init self s else orig_init self s

/-- The hard policy's `_del_` (singleton.py lines 152-160).  The captured
original `__del__`, when present, is a function observing the class flag
`__has_instance` at the moment it is invoked; the code first assigns
`self.__class__.__has_instance = False` and only then calls `orig_del(self)`,
so the teardown observes the cleared flag.  Returns the final flag and
`some` teardown result exactly when a teardown was captured.  The source
lines contain no raise, so the embedding is a total function. -/
def hard_del {α : Type} (orig_del : Option (Bool → α)) (_hasInstance : Bool) :
    Bool × Option α :=
  match orig_del with
  | some f => (false, some (f false))
  | none => (false, none)

/-- The soft V1 policy's `_del_` (singleton.py lines 196-204): assign
`self.__class__.__object_ref = None`, then invoke the captured original
`__del__` (observing the cleared reference) when one was captured. -/
def softV1_del {α : Type} (orig_del : Option (Option Nat → α))
    (_objectRef : Option Nat) : Option Nat × Option α :=
  match orig_del with
  | some f => (none, some (f none))
  | none => (none, none)

/-- The soft V2 policy's `_del_` (singleton.py lines 246-256): assign
`self.__class__.__object_ref = None` and `self.__class__.__not_init = True`,
then invoke the captured original `__del__` (observing the cleared state)
when one was captured. -/
def softV2_del {α : Type} (orig_del : Option (Option Nat × Bool → α))
    (_st : Option Nat × Bool) : (Option Nat × Bool) × Option α :=
  match orig_del with
  | some f => ((none, true), some (f (none, true)))
  | none => ((none, true), none)

/-- Iterate the state part of a soft V2 construction call. -/
def iterConstructV2 : Nat → SoftV2Sys → SoftV2Sys
  | 0, s => s
  | n + 1, s => iterConstructV2 n (softV2ConstructS s)

theorem hardInv_start : HardInv HardSys.start := by
  constructor
  · simp [HardSys.start]
  · simp [HardSys.start]

theorem hardInv_step (s : HardSys) (h : HardInv s) (op : Op) :
    HardInv (hardStep s op) := by
  obtain ⟨hflag, hlen, hfresh⟩ := h
  cases op with
  | construct =>
    by_cases hi : s.hasInstance = true
    · simp [hardStep, hardConstruct, hardConstructR, hard_new, hi]
      exact ⟨hflag, hlen, hfresh⟩
    · have hi' : s.hasInstance = false := by
        cases hb : s.hasInstance
        · rfl
        · exact absurd hb hi
      have hempty : s.live = [] := by
        by_contra hne
        have := hflag.mpr hne
        rw [hi'] at this
        exact Bool.false_ne_true this
      simp [hardStep, hardConstruct, hardConstructR, hard_new, hi', hempty, HardInv]
  | destroy =>
    cases hl : s.live with
    | nil =>
      have : hardStep s .destroy = s := by simp [hardStep, hardDestroy, hl]
      rw [this]
      exact ⟨hflag, hlen, hfresh⟩
    | cons a rest =>
      have hrest : rest = [] := by
        have := hlen
        rw [hl] at this
        simp at this
        exact this
      subst hrest
      simp [hardStep, hardDestroy, hl, HardInv]

theorem hardInv_run (ops : List Op) : HardInv (hardRun ops) := by
  have h : ∀ s, HardInv s → HardInv (ops.foldl hardStep s) := by
    induction ops with
    | nil => intro s hs; exact hs
    | cons op rest ih =>
      intro s hs
      exact ih (hardStep s op) (hardInv_step s hs op)
  exact h HardSys.start hardInv_start

theorem softV1Inv_start : SoftV1Inv SoftV1Sys.start := by
  constructor
  · left
    exact ⟨rfl, rfl⟩
  · intro x hx
    simp [SoftV1Sys.start] at hx

theorem softV1Inv_step (s : SoftV1Sys) (h : SoftV1Inv s) (op : Op) :
    SoftV1Inv (softV1Step s op) := by
  obtain ⟨hcase, hfresh⟩ := h
  cases op with
  | construct =>
    rcases hcase with ⟨href, hlive⟩ | ⟨r, href, hlive⟩
    · simp [softV1Step, softV1ConstructS, softV1Construct, softV1New, href, hlive,
        weakDeref, SoftV1Inv]
    · have hr : r ∈ s.live := by rw [hlive]; exact List.mem_singleton.mpr rfl
      have hstep : softV1Step s .construct =
          ⟨s.nextId, s.live, s.objectRef, s.initLog ++ [r]⟩ := by
        simp [softV1Step, softV1ConstructS, softV1Construct, softV1New, href,
          weakDeref, hr]
      rw [hstep]
      exact ⟨Or.inr ⟨r, href, hlive⟩, hfresh⟩
  | destroy =>
    rcases hcase with ⟨href, hlive⟩ | ⟨r, href, hlive⟩
    · have : softV1Step s .destroy = s := by simp [softV1Step, softV1Destroy, hlive]
      rw [this]
      exact ⟨Or.inl ⟨href, hlive⟩, hfresh⟩
    · simp [softV1Step, softV1Destroy, hlive, SoftV1Inv]

theorem softV1Inv_run (ops : List Op) : SoftV1Inv (softV1Run ops) := by
  have h : ∀ s, SoftV1Inv s → SoftV1Inv (ops.foldl softV1Step s) := by
    induction ops with
    | nil => intro s hs; exact hs
    | cons op rest ih =>
      intro s hs
      exact ih (softV1Step s op) (softV1Inv_step s hs op)
  exact h SoftV1Sys.start softV1Inv_start

theorem softV2Inv_start : SoftV2Inv SoftV2Sys.start := by
  refine ⟨Or.inl ⟨rfl, rfl⟩, ?_, rfl⟩
  intro x hx
  simp [SoftV2Sys.start] at hx

theorem softV2Inv_step (s : SoftV2Sys) (h : SoftV2Inv s) (op : Op) :
    SoftV2Inv (softV2Step s op) := by
  obtain ⟨hcase, hfresh, hni⟩ := h
  cases op with
  | construct =>
    rcases hcase with ⟨href, hlive⟩ | ⟨r, href, hlive⟩
    · have hnotInit : s.notInit = true := by rw [hni, href]; rfl
      have hstep : softV2Step s .construct =
          ⟨s.nextId + 1, [s.nextId], some s.nextId, false, s.initLog ++ [s.nextId]⟩ := by
        simp [softV2Step, softV2ConstructS, softV2Construct, softV2New, href, hlive,
          weakDeref, softV2Init, hnotInit]
      rw [hstep]
      refine ⟨Or.inr ⟨s.nextId, rfl, rfl⟩, ?_, rfl⟩
      intro x hx
      simp at hx
      show x < s.nextId + 1
      omega
    · have hnotInit : s.notInit = false := by rw [hni, href]; rfl
      have hr : r ∈ s.live := by rw [hlive]; exact List.mem_singleton.mpr rfl
      have hstep : softV2Step s .construct = s := by
        simp [softV2Step, softV2ConstructS, softV2Construct, softV2New, href,
          weakDeref, hr, softV2Init, hnotInit]
      rw [hstep]
      exact ⟨Or.inr ⟨r, href, hlive⟩, hfresh, hni⟩
  | destroy =>
    rcases hcase with ⟨href, hlive⟩ | ⟨r, href, hlive⟩
    · have : softV2Step s .destroy = s := by simp [softV2Step, softV2Destroy, hlive]
      rw [this]
      exact ⟨Or.inl ⟨href, hlive⟩, hfresh, hni⟩
    · have hstep : softV2Step s .destroy =
          ⟨s.nextId, [], none, true, s.initLog⟩ := by
        simp [softV2Step, softV2Destroy, hlive]
      rw [hstep]
      refine ⟨Or.inl ⟨rfl, rfl⟩, ?_, rfl⟩
      intro x hx
      simp at hx

theorem softV2Inv_run (ops : List Op) : SoftV2Inv (softV2Run ops) := by
  have h : ∀ s, SoftV2Inv s → SoftV2Inv (ops.foldl softV2Step s) := by
    induction ops with
    | nil => intro s hs; exact hs
    | cons op rest ih =>
      intro s hs
      exact ih (softV2Step s op) (softV2Inv_step s hs op)
  exact h SoftV2Sys.start softV2Inv_start

theorem softV1Construct_empty (s : SoftV1Sys) (href : s.objectRef = none) :
    softV1Construct s =
      (⟨s.nextId + 1, s.nextId :: s.live, some s.nextId, s.initLog ++ [s.nextId]⟩,
        some s.nextId) := by
  simp [softV1Construct, softV1New, href, weakDeref]

theorem softV1Construct_reuse (s : SoftV1Sys) (r : Nat) (href : s.objectRef = some r)
    (hr : r ∈ s.live) :
    softV1Construct s = (⟨s.nextId, s.live, s.objectRef, s.initLog ++ [r]⟩, some r) := by
  simp [softV1Construct, softV1New, href, weakDeref, hr]

theorem softV2Construct_empty (s : SoftV2Sys) (href : s.objectRef = none)
    (hni : s.notInit = true) :
    softV2ConstructS s =
      ⟨s.nextId + 1, s.nextId :: s.live, some s.nextId, false,
        s.initLog ++ [s.nextId]⟩ := by
  simp [softV2ConstructS, softV2Construct, softV2New, href, weakDeref, softV2Init, hni]

theorem softV2Construct_reuse (s : SoftV2Sys) (r : Nat) (href : s.objectRef = some r)
    (hr : r ∈ s.live) (hni : s.notInit = false) :
    softV2ConstructS s = s := by
  simp [softV2ConstructS, softV2Construct, softV2New, href, weakDeref, hr,
    softV2Init, hni]

theorem iterConstructV2_reuse (n : Nat) (s : SoftV2Sys) (r : Nat)
    (href : s.objectRef = some r) (hr : r ∈ s.live) (hni : s.notInit = false) :
    iterConstructV2 n s = s := by
  induction n with
  | zero => rfl
  | succ k ih =>
    show iterConstructV2 k (softV2ConstructS s) = s
    rw [softV2Construct_reuse s r href hr hni]
    exact ih

theorem iterConstructV2_once (n : Nat) (s : SoftV2Sys) (href : s.objectRef = none)
    (hni : s.notInit = true) :
    (iterConstructV2 (n + 1) s).initLog = s.initLog ++ [s.nextId] := by
  show (iterConstructV2 n (softV2ConstructS s)).initLog = _
  rw [softV2Construct_empty s href hni]
  rw [iterConstructV2_reuse n _ s.nextId rfl (List.mem_cons_self _ _) rfl]

/-- C1: for every sequence of construct and destroy operations, under each of
the three policies (Hard, SoftReuseInit, SoftSkipInit) at most one live
instance of the governed type exists at any point in time. -/
theorem claim_C1_at_most_one_live_instance (ops : List Op) :
    (hardRun ops).live.length ≤ 1 ∧ (softV1Run ops).live.length ≤ 1 ∧
      (softV2Run ops).live.length ≤ 1 := by
  refine ⟨(hardInv_run ops).2.1, ?_, ?_⟩
  · rcases (softV1Inv_run ops).1 with ⟨_, hlive⟩ | ⟨r, _, hlive⟩ <;> simp [hlive]
  · rcases (softV2Inv_run ops).1 with ⟨_, hlive⟩ | ⟨r, _, hlive⟩ <;> simp [hlive]

/-- C2: under the hard policy, a construction call with `__has_instance`
true raises `SingletonError`, performs no allocation and leaves the policy
state unchanged; with the flag false it sets the flag, calls the original
allocate (the counter advances and a fresh identity becomes live) and
returns the new instance. -/
theorem claim_C2_hard_on_construct (s : HardSys) :
    (s.hasInstance = true → hardConstructR s = (s, .error .singletonError)) ∧
    (s.hasInstance = false →
      hardConstructR s = (⟨s.nextId + 1, s.nextId :: s.live, true⟩, .ok s.nextId)) := by
  constructor
  · intro h
    simp [hardConstructR, hard_new, h]
  · intro h
    simp [hardConstructR, hard_new, h]

theorem claim_C2_hard_on_construct_witness :
    hardConstructR ⟨5, [3], true⟩ = (⟨5, [3], true⟩, .error .singletonError) ∧
    hardConstructR ⟨0, [], false⟩ = (⟨1, [0], true⟩, .ok 0) :=
  ⟨(claim_C2_hard_on_construct ⟨5, [3], true⟩).1 rfl,
    (claim_C2_hard_on_construct ⟨0, [], false⟩).2 rfl⟩

/-- C8: under the hard policy, after a successful construction and a full
destruction of the resulting instance, a subsequent construction succeeds
(returns `.ok`, raising no error) and yields an instance whose identity
differs from the destroyed one. -/
theorem claim_C8_hard_reconstruct_after_destroy (s : HardSys)
    (h : s.hasInstance = false) :
    ∃ a s1 b s2, hard_new s = .ok (s1, a) ∧
      hard_new (hardDestroy s1) = .ok (s2, b) ∧ b ≠ a := by
  refine ⟨s.nextId, ⟨s.nextId + 1, s.nextId :: s.live, true⟩, s.nextId + 1,
    ⟨s.nextId + 2, (s.nextId + 1) :: s.live, true⟩, ?_, ?_, ?_⟩
  · simp [hard_new, h]
  · simp [hard_new, hardDestroy]
  · omega

theorem claim_C8_hard_reconstruct_after_destroy_witness :
    HardSys.start.hasInstance = false ∧
    ∃ a s1 b s2, hard_new HardSys.start = .ok (s1, a) ∧
      hard_new (hardDestroy s1) = .ok (s2, b) ∧ b ≠ a :=
  ⟨rfl, claim_C8_hard_reconstruct_after_destroy HardSys.start rfl⟩

/-- C9: under all three policies, running the rewritten `__del__` on the
empty policy state raises no error (the embedded `_del_` functions are
total, as the source lines contain no raise) and leaves the policy state
empty, whether or not an original teardown was captured. -/
theorem claim_C9_destroy_idempotent_on_empty {α : Type} (f : Bool → α)
    (g : Option Nat → α) (k : Option Nat × Bool → α) :
    (hard_del (some f) false).1 = false ∧ (@hard_del α none false).1 = false ∧
    (softV1_del (some g) none).1 = none ∧ (@softV1_del α none none).1 = none ∧
    (softV2_del (some k) (none, true)).1 = (none, true) ∧
    (@softV2_del α none (none, true)).1 = (none, true) :=
  ⟨rfl, rfl, rfl, rfl, rfl, rfl⟩

/-- C10: the error raised by the hard policy on a duplicate construct is
`SingletonError`, declared as a direct subclass of `BaseException` rather
than `Exception`, so a handler for the ordinary `Exception` hierarchy does
not catch it while a `BaseException` handler does. -/
theorem claim_C10_singleton_error_not_exception (s : HardSys)
    (h : s.hasInstance = true) :
    hard_new s = .error .singletonError ∧
    superclass .singletonError = some .baseException ∧
    exceptCatches .exception .singletonError = false ∧
    exceptCatches .baseException .singletonError = true := by
  refine ⟨?_, rfl, by decide, by decide⟩
  simp [hard_new, h]

theorem claim_C10_singleton_error_not_exception_witness :
    hard_new ⟨1, [0], true⟩ = .error .singletonError ∧
    superclass .singletonError = some .baseException ∧
    exceptCatches .exception .singletonError = false ∧
    exceptCatches .baseException .singletonError = true :=
  claim_C10_singleton_error_not_exception ⟨1, [0], true⟩ rfl

/-- C3 counterexample: in the state where a weak handle is stored
(`__object_ref = some 0`) but the weak reference reports the referent gone
(`weakDeref` yields `none`), the soft `_new_` does not call the original
allocate: the state is unchanged (the allocation counter stays at 1, not 2)
and the call returns `none` rather than a new instance, contrary to the
claim that this case allocates. -/
theorem claim_C3_counterexample :
    (⟨1, [], some 0, []⟩ : SoftV1Sys).objectRef ≠ none ∧
    weakDeref (⟨1, [], some 0, []⟩ : SoftV1Sys).live
      (⟨1, [], some 0, []⟩ : SoftV1Sys).objectRef = none ∧
    softV1New ⟨1, [], some 0, []⟩ = (⟨1, [], some 0, []⟩, none) ∧
    ¬ (softV1New ⟨1, [], some 0, []⟩).1.nextId = 2 := by
  refine ⟨by simp, rfl, rfl, by decide⟩

/-- C3 (amended): under SoftReuseInit and SoftSkipInit, `on_construct`
performs no allocation whenever a weak handle is stored, returning the
result of calling the stored handle — the existing instance when the
referent is live, and `none` (not a fresh allocation) when the referent has
been reported gone; it calls the original allocate, stores a fresh weak
handle over the result and returns the new instance exactly when no handle
is stored. -/
theorem claim_C3_amended_soft_on_construct (s1 : SoftV1Sys) (s2 : SoftV2Sys) :
    (s1.objectRef = none →
      softV1New s1 =
        (⟨s1.nextId + 1, s1.nextId :: s1.live, some s1.nextId, s1.initLog⟩,
          some s1.nextId)) ∧
    (∀ r, s1.objectRef = some r → softV1New s1 = (s1, weakDeref s1.live (some r))) ∧
    (s2.objectRef = none →
      softV2New s2 =
        (⟨s2.nextId + 1, s2.nextId :: s2.live, some s2.nextId, s2.notInit,
          s2.initLog⟩, some s2.nextId)) ∧
    (∀ r, s2.objectRef = some r → softV2New s2 = (s2, weakDeref s2.live (some r))) := by
  refine ⟨?_, ?_, ?_, ?_⟩
  · intro h
    simp [softV1New, h, weakDeref]
  · intro r h
    simp [softV1New, h]
  · intro h
    simp [softV2New, h, weakDeref]
  · intro r h
    simp [softV2New, h]

theorem claim_C3_amended_soft_on_construct_witness :
    softV1New ⟨0, [], none, []⟩ = (⟨1, [0], some 0, []⟩, some 0) ∧
    softV1New ⟨3, [2], some 2, []⟩ = (⟨3, [2], some 2, []⟩, some 2) ∧
    softV2New ⟨0, [], none, true, []⟩ = (⟨1, [0], some 0, true, []⟩, some 0) ∧
    softV2New ⟨3, [2], some 2, false, []⟩ = (⟨3, [2], some 2, false, []⟩, some 2) := by
  have h := claim_C3_amended_soft_on_construct ⟨0, [], none, []⟩ ⟨0, [], none, true, []⟩
  have h2 := claim_C3_amended_soft_on_construct ⟨3, [2], some 2, []⟩
    ⟨3, [2], some 2, false, []⟩
  refine ⟨h.1 rfl, ?_, h.2.2.1 rfl, ?_⟩
  · simpa [weakDeref] using h2.2.1 2 rfl
  · simpa [weakDeref] using h2.2.2.2 2 rfl

/-- C4: a construction or initialization request whose exact runtime type
differs from the governed type never triggers the policy: the wrapper calls
the captured original allocate/initialize behaviour unmodified. -/
theorem claim_C4_exact_type_gating {σ α : Type} (singleton_cls : Nat)
    (orig_new modified_new : Nat → σ → σ × α)
    (orig_init modified_init : PyObj → σ → σ) (cls : Nat) (self : PyObj)
    (s t : σ) (hnew : cls ≠ singleton_cls) (hinit : self.cls ≠ singleton_cls) :
    create_singleton_new singleton_cls orig_new modified_new cls s =
      orig_new cls s ∧
    create_singleton_init singleton_cls orig_init modified_init self t =
      orig_init self t := by
  constructor
  · simp [create_singleton_new, hnew]
  · simp [create_singleton_init, hinit]

theorem claim_C4_exact_type_gating_witness :
    create_singleton_new 0 (fun c n => (n + 1, c)) (fun _ n => (n + 7, 99)) 1 5 =
      (6, 1) ∧
    create_singleton_init 0 (fun p n => n + p.ident) (fun _ n => n + 100)
      ⟨1, 4⟩ 5 = 9 := by
  have h := claim_C4_exact_type_gating 0 (fun c n => (n + 1, c))
    (fun _ n => (n + 7, 99)) (fun p n => n + p.ident) (fun _ n => n + 100)
    1 ⟨1, 4⟩ 5 5 (by decide) (by decide)
  exact ⟨h.1, h.2⟩

/-- C5: under all three policies, the rewritten `__del__` clears the
liveness state before invoking the original teardown — the teardown, when
one was captured, is always invoked and observes the already-cleared policy
state — and no teardown is invoked when none was captured, while the state
is still cleared. -/
theorem claim_C5_state_cleared_before_teardown {α : Type} (f : Bool → α)
    (g : Option Nat → α) (k : Option Nat × Bool → α) (st1 : Bool)
    (st2 : Option Nat) (st3 : Option Nat × Bool) :
    hard_del (some f) st1 = (false, some (f false)) ∧
    softV1_del (some g) st2 = (none, some (g none)) ∧
    softV2_del (some k) st3 = ((none, true), some (k (none, true))) ∧
    (@hard_del α none st1).2 = none ∧ (@softV1_del α none st2).2 = none ∧
    (@softV2_del α none st3).2 = none :=
  ⟨rfl, rfl, rfl, rfl, rfl, rfl⟩

/-- C6: under SoftReuseInit, a construct call while an instance is live
returns the identity of the live instance, and the original initializer is
invoked on every construct call (the initializer log grows by exactly the
returned object), whether the instance was newly allocated or reused. -/
theorem claim_C6_soft_reuse_identity_and_init (ops : List Op) (x : Nat)
    (hx : x ∈ (softV1Run ops).live) :
    ((softV1Construct (softV1Run ops)).2 = some x ∧
      (softV1Construct (softV1Run ops)).1.initLog =
        (softV1Run ops).initLog ++ [x]) ∧
    ∀ ops2 : List Op, ∃ y, (softV1Construct (softV1Run ops2)).2 = some y ∧
      (softV1Construct (softV1Run ops2)).1.initLog =
        (softV1Run ops2).initLog ++ [y] := by
  constructor
  · rcases (softV1Inv_run ops).1 with ⟨_, hlive⟩ | ⟨r, href, hlive⟩
    · rw [hlive] at hx
      exact absurd hx (List.not_mem_nil x)
    · have hxr : x = r := by
        rw [hlive] at hx
        exact List.mem_singleton.mp hx
      subst hxr
      have hr : x ∈ (softV1Run ops).live := hx
      rw [softV1Construct_reuse (softV1Run ops) x href hr]
      exact ⟨rfl, rfl⟩
  · intro ops2
    rcases (softV1Inv_run ops2).1 with ⟨href, _⟩ | ⟨r, href, hlive⟩
    · refine ⟨(softV1Run ops2).nextId, ?_, ?_⟩ <;>
        rw [softV1Construct_empty (softV1Run ops2) href]
    · have hr : r ∈ (softV1Run ops2).live := by
        rw [hlive]
        exact List.mem_singleton.mpr rfl
      refine ⟨r, ?_, ?_⟩ <;> rw [softV1Construct_reuse (softV1Run ops2) r href hr]

theorem claim_C6_soft_reuse_identity_and_init_witness :
    0 ∈ (softV1Run [Op.construct]).live ∧
    (softV1Construct (softV1Run [Op.construct])).2 = some 0 ∧
    (softV1Construct (softV1Run [Op.construct])).1.initLog =
      (softV1Run [Op.construct]).initLog ++ [0] := by
  have h := claim_C6_soft_reuse_identity_and_init [Op.construct] 0 (by decide)
  exact ⟨by decide, h.1.1, h.1.2⟩

/-- C7: under SoftSkipInit, starting from any reachable empty state, a
construct followed by any number of further constructs invokes the original
initializer exactly once (the initializer log grows by exactly one entry);
and a full destruction clears the stored reference and resets `__not_init`,
so that constructs after full destruction again run the initializer exactly
once. -/
theorem claim_C7_soft_skip_init_once (ops : List Op) (n : Nat) :
    ((softV2Run ops).objectRef = none →
      (iterConstructV2 (n + 1) (softV2Run ops)).initLog =
        (softV2Run ops).initLog ++ [(softV2Run ops).nextId]) ∧
    (softV2Destroy (softV2Run ops)).objectRef = none ∧
    (softV2Destroy (softV2Run ops)).notInit = true ∧
    (iterConstructV2 (n + 1) (softV2Destroy (softV2Run ops))).initLog =
      (softV2Destroy (softV2Run ops)).initLog ++
        [(softV2Destroy (softV2Run ops)).nextId] := by
  obtain ⟨hcase, hfresh, hni⟩ := softV2Inv_run ops
  have hdes : (softV2Destroy (softV2Run ops)).objectRef = none ∧
      (softV2Destroy (softV2Run ops)).notInit = true := by
    rcases hcase with ⟨href, hlive⟩ | ⟨r, href, hlive⟩
    · have heq : softV2Destroy (softV2Run ops) = softV2Run ops := by
        simp [softV2Destroy, hlive]
      rw [heq, href, hni, href]
      exact ⟨rfl, rfl⟩
    · have heq : softV2Destroy (softV2Run ops) =
          ⟨(softV2Run ops).nextId, [], none, true, (softV2Run ops).initLog⟩ := by
        simp [softV2Destroy, hlive]
      rw [heq]
      exact ⟨rfl, rfl⟩
  refine ⟨?_, hdes.1, hdes.2, ?_⟩
  · intro href
    have hni2 : (softV2Run ops).notInit = true := by rw [hni, href]; rfl
    exact iterConstructV2_once n (softV2Run ops) href hni2
  · exact iterConstructV2_once n (softV2Destroy (softV2Run ops)) hdes.1 hdes.2

theorem claim_C7_soft_skip_init_once_witness :
    (softV2Run []).objectRef = none ∧
    (iterConstructV2 1 (softV2Run [])).initLog =
      (softV2Run []).initLog ++ [(softV2Run []).nextId] ∧
    (iterConstructV2 1 (softV2Destroy (softV2Run []))).initLog =
      (softV2Destroy (softV2Run [])).initLog ++
        [(softV2Destroy (softV2Run [])).nextId] := by
  have h := claim_C7_soft_skip_init_once [] 0
  exact ⟨rfl, h.1 rfl, h.2.2.2⟩

end Singleton
